import Mathlib

/-!
# tkn-shell: verification of the command engine

A shallow embedding of the tkn-shell interactive engine: the parsed-command
data model (`internal/parser/parser.go`), the session store
(`internal/state/state.go`), the parameter interpolator, the conditional
("when") attachment mechanism and the dispatcher `ExecuteCommand`
(`internal/engine`, interface-based version), and the REPL dispatch loop
(`internal/repl/repl.go`).

Modelling conventions:
* Go maps `map[string]*T` are modelled as insertion-ordered association lists
  `List (String × T)`; Go map assignment replaces the entry when the key is
  present and appends otherwise, deletion filters the key out.  Engine-reachable
  sessions always have duplicate-free keys.
* The `CurrentPipeline`/`CurrentTask` pointers are modelled by the *name* of
  the pointee (the spec calls them weak references, "lookup by name, never
  ownership").  A mutation through the pointer becomes an update of the map
  entry under that name.  A current name that no longer resolves in the map is
  identified with a nil pointer; the engine never produces such a state.
* Undo closures (`state.RevertFunc`) are defunctionalised into the
  `RevertAction` variants suggested by the design notes (§9 of the spec), each
  capturing exactly the values the corresponding Go closure captures.
* Error values carry the `fmt.Errorf` message text; the `line %d, column %d:`
  prefix added by `errorWithPosition` is dropped because source positions are
  not part of the model.
* `feedback.Infof`/`Errorf` calls are pure console output and are dropped.
-/

namespace TknShell

/-! ## Parsed-command data model (internal/parser/parser.go) -/

/-- `parser.Condition`: one `when` condition `left OPERATOR right`. -/
structure Condition where
  left : String
  operator : String
  right : String
deriving DecidableEq, Repr

/-- `parser.WhenClause`: the `when` keyword followed by conditions. -/
structure WhenClause where
  conditions : List Condition
deriving DecidableEq, Repr

/-- `parser.BaseCommand`: kind, optional action, argument list, optional
raw-script string (with its backtick delimiters still present, as lexed). -/
structure BaseCommand where
  kind : String
  action : String
  args : List String
  script : String
deriving DecidableEq, Repr

/-- `parser.Command`: a pipe-sequence element is either a when clause or a
base command. -/
inductive LineCmd where
  | whenClause (w : WhenClause)
  | base (b : BaseCommand)
deriving DecidableEq, Repr

/-! ## Entity data model (the Tekton resource fields the engine touches) -/

/-- `tektonv1.ParamValue` restricted to the fields the engine writes
(`Type` is always `ParamTypeString` = "string", plus `StringVal`). -/
structure ParamValue where
  type : String
  stringVal : String
deriving DecidableEq, Repr

/-- `tektonv1.ParamSpec`: a named parameter with an optional default. -/
structure ParamSpec where
  name : String
  type : String
  default : Option ParamValue
deriving DecidableEq, Repr

/-- `tektonv1.Step`: one unit of work inside a task. -/
structure Step where
  name : String
  image : String
  script : String
deriving DecidableEq, Repr

/-- `tektonv1.TaskSpec`: the fields the engine touches. -/
structure TaskSpec where
  params : List ParamSpec
  steps : List Step
deriving DecidableEq, Repr

/-- `tektonv1.Task`: name plus spec. -/
structure Task where
  name : String
  spec : TaskSpec
deriving DecidableEq, Repr

/-- `tektonv1.TaskRef`: reference to a task by name
(`Kind` is always `NamespacedTaskKind` = "Task"). -/
structure TaskRef where
  name : String
  kind : String
deriving DecidableEq, Repr

/-- `tektonv1.WhenExpression`: input, operator ("in" / "notin"), values. -/
structure WhenExpression where
  input : String
  operator : String
  values : List String
deriving DecidableEq, Repr

/-- `tektonv1.PipelineTask`: an edge inside a pipeline referencing a task. -/
structure PipelineTask where
  name : String
  taskRef : Option TaskRef
  whenExprs : List WhenExpression
deriving DecidableEq, Repr

/-- `tektonv1.PipelineSpec`: the fields the engine touches. -/
structure PipelineSpec where
  tasks : List PipelineTask
deriving DecidableEq, Repr

/-- `tektonv1.Pipeline`: name plus spec. -/
structure Pipeline where
  name : String
  spec : PipelineSpec
deriving DecidableEq, Repr

/-! ## Go map model: insertion-ordered association lists -/

/-- Lookup in a Go map: the value stored under `k`, if any. -/
def mapGet {α : Type} (m : List (String × α)) (k : String) : Option α :=
  (m.find? (fun e => e.1 == k)).map (fun e => e.2)

/-- Go map assignment `m[k] = v`: replace the entry when present, append
otherwise.  (Entries have unique keys in every engine-built map, so replacing
the first occurrence is Go map assignment.) -/
def mapSet {α : Type} : List (String × α) → String → α → List (String × α)
  | [], k, v => [(k, v)]
  | e :: m, k, v => if e.1 == k then (k, v) :: m else e :: mapSet m k v

/-- Go `delete(m, k)`. -/
def mapDelete {α : Type} (m : List (String × α)) (k : String) :
    List (String × α) :=
  m.filter (fun e => e.1 != k)

/-- The keys of a Go map. -/
def mapKeys {α : Type} (m : List (String × α)) : List String :=
  m.map (fun e => e.1)

/-! ## Model of Go `strings.ReplaceAll` (library function used by the
interpolator).  The recursion is fuelled by the remaining input length: each
step consumes at least one character, so `s.length` fuel always suffices, and
an exhausted fuel returns the remainder unchanged. -/

/-- One left-to-right, non-overlapping, non-recursive replacement sweep. -/
def replaceAllAux (pat rep : List Char) : Nat → List Char → List Char
  | _, [] => []
  | 0, s => s
  | Nat.succ fuel, c :: rest =>
    if pat.isPrefixOf (c :: rest) then
      rep ++ replaceAllAux pat rep fuel ((c :: rest).drop pat.length)
    else
      c :: replaceAllAux pat rep fuel rest

/-- Model of Go `strings.ReplaceAll(s, pattern, replacement)` for the
non-empty patterns the engine uses (every pattern starts with `$(params.`;
Go's empty-pattern behaviour is not modelled). -/
def replaceAll (s pattern replacement : String) : String :=
  if pattern.data.isEmpty then s
  else ⟨replaceAllAux pattern.data replacement.data s.data.length s.data⟩

/-- Substring occurrence test over character lists (model of Go
`strings.Contains` for the same non-empty patterns). -/
def containsPat (pat : List Char) : List Char → Bool
  | [] => pat.isEmpty
  | c :: rest => pat.isPrefixOf (c :: rest) || containsPat pat rest

/-- The reference pattern `$(params.<name>)` built by `interpolateParams`
via `fmt.Sprintf`. -/
def paramPattern (name : String) : String :=
  "$(params." ++ name ++ ")"

/-- `containsPat` lifted to strings, for stating reference-freeness. -/
def containsRef (s : String) (name : String) : Bool :=
  containsPat (paramPattern name).data s.data

/-! ## internal/engine: interpolateParams and convertToTektonWhenExpressions -/

/-- `engine.interpolateParams`: replaces `$(params.name)` with the param's
default value in a string, one `strings.ReplaceAll` per param, in param-list
order. -/
def interpolateParams (str : String) (params : List ParamSpec) : String :=
  params.foldl
    (fun str p =>
      match p.default with
      | some d => replaceAll str (paramPattern p.name) d.stringVal
      | none => str)
    str

/-- `engine.convertToTektonWhenExpressions`: `==` maps to operator "in"
(`selection.In`), `!=` to "notin" (`selection.NotIn`); a condition with any
other operator is skipped with a warning. -/
def convertToTektonWhenExpressions (whenClause : Option WhenClause) :
    List WhenExpression :=
  match whenClause with
  | none => []
  | some wc =>
    wc.conditions.foldl
      (fun acc cond =>
        match cond.operator with
        | "==" => acc ++ [⟨cond.left, "in", [cond.right]⟩]
        | "!=" => acc ++ [⟨cond.left, "notin", [cond.right]⟩]
        | _ => acc)
      []

/-! ## Undo actions (internal/state RevertFunc, defunctionalised)

Each variant captures exactly the values the corresponding Go closure in
`engine.ExecuteCommand` closes over. -/

/-- The reversal actions pushed by the four mutating commands. -/
inductive RevertAction where
  /-- Pushed by `pipeline create`: captures the created name and the prior
  current pipeline/task pointers. -/
  | createPipeline (name : String)
      (prevCurrentPipeline prevCurrentTask : Option String)
  /-- Pushed by `task create`: captures the created name, the prior current
  task, whether (and to which pipeline) a pipeline-task edge was written, and
  a copy of that pipeline's prior edge list. -/
  | createTask (name : String) (prevCurrentTask : Option String)
      (wasAddedToPipeline : Bool) (pipelineName : String)
      (originalPipelineTasks : List PipelineTask)
  /-- Pushed by `param`: captures the task and param names, whether the param
  existed, its index, and a deep copy of the prior spec when it existed. -/
  | setParam (taskName paramName : String) (paramExisted : Bool)
      (originalParamIndex : Nat) (originalParamSpec : Option ParamSpec)
  /-- Pushed by `step add`: captures the task name and the prior step count. -/
  | addStep (taskName : String) (originalStepsLen : Nat)
deriving DecidableEq, Repr

/-! ## Session store (internal/state/state.go) -/

/-- `state.Session`: the named entities, the current-context pointers
(modelled by name) and the undo stack. -/
structure Session where
  pipelines : List (String × Pipeline)
  tasks : List (String × Task)
  currentPipeline : Option String
  currentTask : Option String
  pastActions : List RevertAction
deriving DecidableEq, Repr

/-- `state.NewSession`: a new, empty session. -/
def NewSession : Session :=
  { pipelines := [], tasks := [], currentPipeline := none, currentTask := none,
    pastActions := [] }

namespace Session

/-- `Session.Reset`: clears the current session data. -/
def Reset (_s : Session) : Session := NewSession

/-- `Session.GetCurrentPipeline`, resolved through the pipelines map. -/
def getCurrentPipeline (s : Session) : Option Pipeline :=
  s.currentPipeline.bind (fun n => mapGet s.pipelines n)

/-- `Session.GetCurrentTask`, resolved through the tasks map. -/
def getCurrentTask (s : Session) : Option Task :=
  s.currentTask.bind (fun n => mapGet s.tasks n)

/-- `Session.PushRevertAction`: appends to the `PastActions` stack. -/
def pushRevertAction (s : Session) (a : RevertAction) : Session :=
  { s with pastActions := s.pastActions ++ [a] }

/-- `Session.PopRevertAction`: removes and returns the last revert action;
`none` when the stack is empty. -/
def popRevertAction (s : Session) : Option RevertAction × Session :=
  match s.pastActions.getLast? with
  | none => (none, s)
  | some a => (some a, { s with pastActions := s.pastActions.dropLast })

end Session

/-- Restore the default of the param at index `i` (Go
`t.Spec.Params[i].Default = d`). -/
def setParamDefault (ps : List ParamSpec) (i : Nat) (d : Option ParamValue) :
    List ParamSpec :=
  match ps.get? i with
  | some p => ps.set i { p with default := d }
  | none => ps

/-- Write back the task stored under `k` (pointer mutation through the map). -/
def mapSetTask (s : Session) (k : String) (t : Task) : Session :=
  { s with tasks := mapSet s.tasks k t }

/-- Executing one defunctionalised revert action against the live session:
the bodies of the closures pushed in `engine.ExecuteCommand`, in the same
order of operations. -/
def applyRevert (a : RevertAction) (s : Session) : Session :=
  match a with
  | .createPipeline name prevP prevT =>
    let s := { s with pipelines := mapDelete s.pipelines name }
    if s.currentPipeline = some name then
      { s with currentPipeline := prevP, currentTask := prevT }
    else s
  | .createTask name prevT wasAdded pipelineName originalPipelineTasks =>
    let s := { s with tasks := mapDelete s.tasks name }
    let s :=
      if s.currentTask = some name then { s with currentTask := prevT } else s
    if wasAdded ∧ pipelineName ≠ "" then
      match mapGet s.pipelines pipelineName with
      | some p =>
        let p' : Pipeline :=
          { p with spec := { p.spec with tasks := originalPipelineTasks } }
        { s with pipelines := mapSet s.pipelines pipelineName p' }
      | none => s
    else s
  | .setParam taskName paramName existed idx origSpec =>
    match mapGet s.tasks taskName with
    | none => s
    | some t =>
      if existed then
        if origSpec.isSome ∧ idx < t.spec.params.length ∧
            ((t.spec.params.get? idx).map (fun p => p.name) = some paramName) then
          let d := (origSpec.map (fun p => p.default)).getD none
          mapSetTask s taskName
            { t with spec := { t.spec with
                params := setParamDefault t.spec.params idx d } }
        else s
      else
        if idx < t.spec.params.length ∧
            ((t.spec.params.get? idx).map (fun p => p.name) = some paramName) then
          mapSetTask s taskName
            { t with spec := { t.spec with
                params := t.spec.params.eraseIdx idx } }
        else s
  | .addStep taskName originalStepsLen =>
    match mapGet s.tasks taskName with
    | none => s
    | some t =>
      if t.spec.steps.length > originalStepsLen then
        mapSetTask s taskName
          { t with spec := { t.spec with steps := t.spec.steps.dropLast } }
      else s

/-! ## Small string helpers used by the dispatcher.

Models of the Go standard-library string functions the engine calls.  They
work on the underlying character lists (`String.data`), which agrees with
Go's byte-level operations on the well-formed values the shell manipulates. -/

/-- Go `strings.HasPrefix`. -/
def goHasPrefix (s pre : String) : Bool :=
  pre.data.isPrefixOf s.data

/-- Go `strings.HasSuffix`. -/
def goHasSuffix (s suf : String) : Bool :=
  suf.data.isSuffixOf s.data

/-- Go `strings.Contains(s, "=")` specialised to one-character needles. -/
def goContainsChar (s : String) (c : Char) : Bool :=
  s.data.contains c

/-- Go `s[1 : len(s)-1]`: drop the first and last character. -/
def goStripEnds (s : String) : String :=
  ⟨(s.data.drop 1).dropLast⟩

/-- Go `strings.TrimSuffix(s, "=")` as used by the `param` command. -/
def trimEqSuffix (s : String) : String :=
  if goHasSuffix s "=" then ⟨s.data.dropLast⟩ else s

/-- The `param` command's value unquoting: strip one surrounding pair of
double quotes or backticks when present and the value has at least two
characters. -/
def unquoteParamValue (v : String) : String :=
  if (goHasPrefix v "\"" ∧ goHasSuffix v "\"") ∨
      (goHasPrefix v "`" ∧ goHasSuffix v "`") then
    if v.data.length ≥ 2 then goStripEnds v else v
  else v

/-- The `step add` script unquoting: strip the backtick delimiters kept by the
lexer. -/
def stripBackticks (s : String) : String :=
  if goHasPrefix s "`" ∧ goHasSuffix s "`" then
    if s.data.length ≥ 2 then goStripEnds s else s
  else s

/-- The first argument scan of `step add`: `--image=X` sets the image, a bare
`--image` is skipped, and the first argument that is neither a flag nor
contains `=` becomes the step name. -/
def scanStepArgs (args : List String) : String × String :=
  args.foldl
    (fun acc arg =>
      let stepName := acc.1
      let imageName := acc.2
      if goHasPrefix arg "--image=" then (stepName, ⟨arg.data.drop 8⟩)
      else if arg == "--image" then (stepName, imageName)
      else if ¬ goHasPrefix arg "--" ∧ ¬ goContainsChar arg '=' then
        (if stepName == "" then (arg, imageName) else (stepName, imageName))
      else (stepName, imageName))
    ("", "")

/-- The second argument scan of `step add`: the value following the first
`--image` flag that has a successor argument. -/
def findSeparateImage : List String → String
  | a :: b :: rest => if a == "--image" then b else findSeparateImage (b :: rest)
  | _ => ""

/-- Lexicographic order on strings through their character lists (model of the
byte order used by Go `sort.Strings`; they agree on the ASCII names the shell
manipulates). -/
def strDataLe (a b : String) : Prop := a.data ≤ b.data

instance : DecidableRel strDataLe :=
  fun a b => (inferInstance : Decidable (a.data ≤ b.data))

instance : IsTotal String strDataLe :=
  ⟨fun a b => le_total a.data b.data⟩

instance : IsTrans String strDataLe :=
  ⟨fun _ _ _ h₁ h₂ => le_trans h₁ h₂⟩

/-- Model of Go `sort.Strings`. -/
def sortStrings (l : List String) : List String :=
  List.insertionSort strDataLe l

/-! ## External collaborators (spec §1, §6), modelled from the spec -/

/-- Modelled from the spec: per-entity structural validation is performed by
the external resource library behind the Validator collaborator (spec §1, §6,
`p.Validate(ctx)` in `ValidateSession`); it is not part of this repository.
The model treats every entity as well-formed. -/
def pipelineValidationError (_p : Pipeline) : Option String := none

/-- Modelled from the spec: see `pipelineValidationError`
(`tk.Validate(ctx)` in `ValidateSession`). -/
def taskValidationError (_t : Task) : Option String := none

/-- Modelled from the spec: YAML serialization is performed by the external
serializer library behind the Resource Exporter collaborator (spec §1, §6);
only opaque bytes flow back into the engine.  The model renders a
deterministic placeholder document. -/
def yamlMarshalTask (t : Task) : String :=
  "kind: Task\nname: " ++ t.name ++ "\n"

/-- Modelled from the spec: see `yamlMarshalTask`. -/
def yamlMarshalPipeline (p : Pipeline) : String :=
  "kind: Pipeline\nname: " ++ p.name ++ "\n"

/-- Modelled from the spec: the Resource Applier collaborator submits the
session's entities to the remote cluster (spec §6 `Apply`); it reads but never
mutates the session.  The model reports success. -/
def ApplyAllError (_s : Session) (_ns : String) : Option String := none

/-- `tektonv1.Param` as built by the run-argument parser. -/
structure RunParam where
  name : String
  value : String
deriving DecidableEq, Repr

/-- Modelled from the spec: out-of-band execution of a pipeline through the
Remote Client Provider (spec §6 `RunPipeline`); does not mutate the session.
The model reports success. -/
def RunPipelineError (_s : Session) (_name : String) (_params : List RunParam)
    (_ns : String) : Option String := none

/-- Modelled from the spec: see `RunPipelineError` (spec §6 `RunTask`). -/
def RunTaskError (_s : Session) (_name : String) (_params : List RunParam)
    (_ns : String) : Option String := none

/-- `engine.ValidateSession`: aggregates every per-entity failure into one
combined message (pipelines first, then tasks; messages joined by "; "). -/
def ValidateSession (s : Session) : Option String :=
  let errs :=
    (s.pipelines.filterMap (fun e =>
      (pipelineValidationError e.2).map
        (fun m => "pipeline '" ++ e.1 ++ "' is invalid: " ++ m))) ++
    (s.tasks.filterMap (fun e =>
      (taskValidationError e.2).map
        (fun m => "task '" ++ e.1 ++ "' is invalid: " ++ m)))
  if errs.isEmpty then none else some (String.intercalate "; " errs)

/-- `export.ExportAll`: marshal all tasks (sorted by name), then all pipelines
(sorted by name), joined by the separator literal `"\\n---\\n"` from the
source; an empty session yields empty bytes. -/
def ExportAll (s : Session) : String :=
  let tasks :=
    List.insertionSort (fun a b => strDataLe a.name b.name)
      (s.tasks.map (fun e => e.2))
  let pipelines :=
    List.insertionSort (fun a b => strDataLe a.name b.name)
      (s.pipelines.map (fun e => e.2))
  let yamlDocs := tasks.map yamlMarshalTask ++ pipelines.map yamlMarshalPipeline
  if yamlDocs.isEmpty then "" else String.intercalate "\\n---\\n" yamlDocs

/-- The single-quote character, written via its code point. -/
def squote : Char := Char.ofNat 39

/-- The run commands' value unquoting: strip one surrounding pair of double or
single quotes when the value has at least two characters. -/
def unquoteRunValue (v : String) : String :=
  if v.data.length ≥ 2 then
    if (v.data.head? = some '"' ∧ v.data.getLast? = some '"') ∨
        (v.data.head? = some squote ∧ v.data.getLast? = some squote) then
      goStripEnds v
    else v
  else v

/-- The argument loop shared by `pipeline run` and `task run`: collects
`param <name>= <value>` pairs (with a single-token `<name>=<value>` fallback
only when the pair form cannot apply) and a `namespace` override. -/
def parseRunArgs : List String → List RunParam → String →
    Except String (List RunParam × String)
  | [], acc, ns => .ok (acc, ns)
  | "param" :: nameArg :: valueArg :: rest, acc, ns =>
    if goHasSuffix nameArg "=" then
      let pname : String := ⟨nameArg.data.dropLast⟩
      if pname = "" then
        .error ("invalid param format: param name cannot be empty in '" ++
          nameArg ++ "'")
      else
        parseRunArgs rest (acc ++ [⟨pname, unquoteRunValue valueArg⟩]) ns
    else
      .error ("invalid param format: expected <name>=, got '" ++ nameArg ++ "'")
  | ["param", single], acc, ns =>
    if goContainsChar single '=' ∧ ¬ goHasSuffix single "=" then
      let p0 : String := ⟨single.data.takeWhile (fun c => c ≠ '=')⟩
      let pval : String := ⟨(single.data.dropWhile (fun c => c ≠ '=')).drop 1⟩
      if p0 = "" then
        .error
          ("invalid param format: param name cannot be empty in <name>=<value>, got '"
            ++ single ++ "'")
      else
        parseRunArgs [] (acc ++ [⟨p0, unquoteRunValue pval⟩]) ns
    else
      .error ("invalid param format near '" ++ single ++
        "'. Expected <name>=<value> or <name>= <value>")
  | ["param"], _, _ =>
    .error "incomplete 'param' definition after 'param' keyword"
  | "namespace" :: nsName :: rest, acc, _ => parseRunArgs rest acc nsName
  | ["namespace"], _, _ =>
    .error "'namespace' keyword must be followed by a namespace name"
  | other :: _, _, _ =>
    .error ("unexpected argument '" ++ other ++ "' for run")

/-! ## The command dispatcher (engine.ExecuteCommand, interface-based
version).  Each `case` of the Go switch becomes one definition; `ExecuteCommand`
assembles the switch. -/

/-- The dispatcher's `any`-typed result, as the closed variant suggested by
the design notes (spec §9): entity, string list, bytes or nothing. -/
inductive Res where
  | pipeline (p : Pipeline)
  | task (t : Task)
  | strings (l : List String)
  | bytes (b : String)
  | unit
deriving DecidableEq, Repr

/-- `case "pipeline"` / `case "create"`. -/
def execPipelineCreate (baseCmd : BaseCommand) (s : Session) :
    Except String (Session × Res) :=
  match baseCmd.args with
  | [name] =>
    if (mapGet s.pipelines name).isSome then
      .error ("pipeline " ++ name ++ " already exists")
    else
      let newPipeline : Pipeline := { name := name, spec := { tasks := [] } }
      let s := { s with pipelines := mapSet s.pipelines name newPipeline }
      let prevCurrentPipeline := s.currentPipeline
      let prevCurrentTask := s.currentTask
      let s := { s with currentPipeline := some name, currentTask := none }
      let s := s.pushRevertAction
        (.createPipeline name prevCurrentPipeline prevCurrentTask)
      .ok (s, .pipeline newPipeline)
  | _ =>
    .error ("pipeline create expects 1 argument (name), got " ++
      toString baseCmd.args.length)

/-- `case "pipeline"` / `case "select"`: no revert action is pushed. -/
def execPipelineSelect (baseCmd : BaseCommand) (s : Session) :
    Except String (Session × Res) :=
  match baseCmd.args with
  | [name] =>
    match mapGet s.pipelines name with
    | none => .error ("pipeline " ++ name ++ " not found")
    | some p =>
      .ok ({ s with currentPipeline := some name, currentTask := none },
        .pipeline p)
  | _ =>
    .error ("pipeline select expects 1 argument (name), got " ++
      toString baseCmd.args.length)

/-- `case "pipeline"` / `case "run"`: delegates to the external runner. -/
def execPipelineRun (baseCmd : BaseCommand) (s : Session) :
    Except String (Session × Res) :=
  match baseCmd.args with
  | [] => .error "pipeline run expects at least 1 argument (pipeline_name), got 0"
  | pipelineName :: rest =>
    if (mapGet s.pipelines pipelineName).isSome then
      match parseRunArgs rest [] "default" with
      | .error e => .error e
      | .ok (runParams, runNamespace) =>
        match RunPipelineError s pipelineName runParams runNamespace with
        | some e =>
          .error ("failed to run pipeline '" ++ pipelineName ++ "': " ++ e)
        | none => .ok (s, .unit)
    else .error ("pipeline '" ++ pipelineName ++ "' not found in session")

/-- `case "task"` / `case "create"`: inserts the task, sets it current, and —
when a pipeline is current — writes the pipeline-task edge, attaching the
active when clause's converted conditions. -/
def execTaskCreate (baseCmd : BaseCommand) (s : Session)
    (whenClause : Option WhenClause) : Except String (Session × Res) :=
  match baseCmd.args with
  | [name] =>
    if (mapGet s.tasks name).isSome then
      .error ("task " ++ name ++ " already exists")
    else
      let newTask : Task := { name := name, spec := { params := [], steps := [] } }
      let s := { s with tasks := mapSet s.tasks name newTask }
      let prevCurrentTask := s.currentTask
      let s := { s with currentTask := some name }
      match s.currentPipeline with
      | some pname =>
        match mapGet s.pipelines pname with
        | some p =>
          let originalPipelineTasks := p.spec.tasks
          let tektonWhens := convertToTektonWhenExpressions whenClause
          let ptIndex := p.spec.tasks.findIdx? (fun pt =>
            pt.name == name ||
              (match pt.taskRef with
               | some r => r.name == name
               | none => false))
          let newTasks :=
            match ptIndex with
            | some i =>
              match p.spec.tasks.get? i with
              | some pt => p.spec.tasks.set i { pt with whenExprs := tektonWhens }
              | none => p.spec.tasks
            | none =>
              p.spec.tasks ++
                [{ name := name,
                   taskRef := some { name := name, kind := "Task" },
                   whenExprs := tektonWhens }]
          let p' := { p with spec := { p.spec with tasks := newTasks } }
          let s := { s with pipelines := mapSet s.pipelines pname p' }
          let s := s.pushRevertAction
            (.createTask name prevCurrentTask true p.name originalPipelineTasks)
          .ok (s, .task newTask)
        | none =>
          let s := s.pushRevertAction
            (.createTask name prevCurrentTask false "" [])
          .ok (s, .task newTask)
      | none =>
        let s := s.pushRevertAction
          (.createTask name prevCurrentTask false "" [])
        .ok (s, .task newTask)
  | _ =>
    .error ("task create expects 1 argument (name), got " ++
      toString baseCmd.args.length)

/-- `case "task"` / `case "select"`: no revert action is pushed. -/
def execTaskSelect (baseCmd : BaseCommand) (s : Session) :
    Except String (Session × Res) :=
  match baseCmd.args with
  | [name] =>
    match mapGet s.tasks name with
    | none => .error ("task '" ++ name ++ "' not found")
    | some t => .ok ({ s with currentTask := some name }, .task t)
  | _ =>
    .error ("task select expects 1 argument (name), got " ++
      toString baseCmd.args.length)

/-- `case "task"` / `case "run"`: delegates to the external runner. -/
def execTaskRun (baseCmd : BaseCommand) (s : Session) :
    Except String (Session × Res) :=
  match baseCmd.args with
  | [] => .error "task run expects at least 1 argument (task_name), got 0"
  | taskName :: rest =>
    if (mapGet s.tasks taskName).isSome then
      match parseRunArgs rest [] "default" with
      | .error e => .error e
      | .ok (runParams, runNamespace) =>
        match RunTaskError s taskName runParams runNamespace with
        | some e => .error ("failed to run task '" ++ taskName ++ "': " ++ e)
        | none => .ok (s, .unit)
    else .error ("task '" ++ taskName ++ "' not found in session")

/-- `case "param"` (no action): upserts the ParamSpec default for the name on
the current task (overwrite when present, else append) and returns the
(updated) current task. -/
def execParam (baseCmd : BaseCommand) (s : Session) :
    Except String (Session × Res) :=
  if baseCmd.action ≠ "" then
    .error ("param command does not take an action, got '" ++
      baseCmd.action ++ "'")
  else
    match s.currentTask with
    | none =>
      .error "no current task selected. Use 'task create <name>' or select an existing task first"
    | some ctName =>
      match mapGet s.tasks ctName with
      | none =>
        .error "no current task selected. Use 'task create <name>' or select an existing task first"
      | some t =>
        match baseCmd.args with
        | [arg0, arg1] =>
          let paramName := trimEqSuffix arg0
          let paramValue := unquoteParamValue arg1
          let taskName := t.name
          match t.spec.params.findIdx? (fun p => p.name == paramName) with
          | some i =>
            let origSpec := t.spec.params.get? i
            let newParams := setParamDefault t.spec.params i
              (some { type := "string", stringVal := paramValue })
            let t' := { t with spec := { t.spec with params := newParams } }
            let s := { s with tasks := mapSet s.tasks ctName t' }
            let s := s.pushRevertAction
              (.setParam taskName paramName true i origSpec)
            .ok (s, .task t')
          | none =>
            let newParamSpec : ParamSpec :=
              { name := paramName, type := "string",
                default := some { type := "string", stringVal := paramValue } }
            let newParams := t.spec.params ++ [newParamSpec]
            let t' := { t with spec := { t.spec with params := newParams } }
            let s := { s with tasks := mapSet s.tasks ctName t' }
            let s := s.pushRevertAction
              (.setParam taskName paramName false (newParams.length - 1) none)
            .ok (s, .task t')
        | _ =>
          .error ("param command expects 2 arguments (name=, value), got " ++
            toString baseCmd.args.length)

/-- `case "step"` / `case "add"`: appends a step whose image and script are
interpolated against the current task's params (snapshot semantics). -/
def execStepAdd (baseCmd : BaseCommand) (s : Session) :
    Except String (Session × Res) :=
  match s.currentTask with
  | none => .error "no task in context. Use 'task create <name>' first"
  | some ctName =>
    match mapGet s.tasks ctName with
    | none => .error "no task in context. Use 'task create <name>' first"
    | some t =>
      let taskNameForUndo := t.name
      let originalStepsLen := t.spec.steps.length
      let scan := scanStepArgs baseCmd.args
      let stepName := scan.1
      let imageScan :=
        if scan.2 == "" then findSeparateImage baseCmd.args else scan.2
      if stepName == "" then
        .error "step name not provided or could not be parsed from args"
      else if imageScan == "" then
        .error ("step image not provided for step '" ++ stepName ++
          "'. Use '--image <image_name>' or '--image=<image_name>'")
      else
        let actualScript := stripBackticks baseCmd.script
        let imageName := interpolateParams imageScan t.spec.params
        let scriptContent := interpolateParams actualScript t.spec.params
        let newStep : Step :=
          { name := stepName, image := imageName, script := scriptContent }
        let t' :=
          { t with spec := { t.spec with steps := t.spec.steps ++ [newStep] } }
        let s := { s with tasks := mapSet s.tasks ctName t' }
        let s := s.pushRevertAction (.addStep taskNameForUndo originalStepsLen)
        .ok (s, .task t')

/-- `case "export"`: validate, then serialize through the exporter. -/
def execExport (baseCmd : BaseCommand) (s : Session) :
    Except String (Session × Res) :=
  if baseCmd.action == "all" then
    match ValidateSession s with
    | some e => .error ("validation failed before export: " ++ e)
    | none => .ok (s, .bytes (ExportAll s))
  else
    .error ("unknown action '" ++ baseCmd.action ++ "' for export. Try 'export all'")

/-- `case "apply"`: validate, then submit through the applier. -/
def execApply (baseCmd : BaseCommand) (s : Session) :
    Except String (Session × Res) :=
  if baseCmd.action == "all" then
    match baseCmd.args with
    | [ns] =>
      match ValidateSession s with
      | some e => .error ("validation failed before apply: " ++ e)
      | none =>
        match ApplyAllError s ns with
        | some e => .error ("failed to apply: " ++ e)
        | none => .ok (s, .unit)
    | _ =>
      .error ("apply all expects 1 argument (namespace), got " ++
        toString baseCmd.args.length)
  else
    .error ("unknown action '" ++ baseCmd.action ++
      "' for apply. Try 'apply all <namespace>'")

/-- `case "list"`: read-only; sorted names or fixed placeholder messages. -/
def execList (baseCmd : BaseCommand) (s : Session) :
    Except String (Session × Res) :=
  match baseCmd.action with
  | "tasks" =>
    if baseCmd.args.isEmpty then
      if s.tasks.isEmpty then .ok (s, .strings ["No tasks defined."])
      else .ok (s, .strings (sortStrings (mapKeys s.tasks)))
    else
      .error ("list tasks expects 0 arguments, got " ++
        toString baseCmd.args.length)
  | "pipelines" =>
    if baseCmd.args.isEmpty then
      if s.pipelines.isEmpty then .ok (s, .strings ["No pipelines defined."])
      else .ok (s, .strings (sortStrings (mapKeys s.pipelines)))
    else
      .error ("list pipelines expects 0 arguments, got " ++
        toString baseCmd.args.length)
  | "stepactions" =>
    if baseCmd.args.isEmpty then
      .ok (s, .strings ["list stepactions is not implemented yet"])
    else
      .error ("list stepactions expects 0 arguments, got " ++
        toString baseCmd.args.length)
  | _ =>
    .error ("unknown action '" ++ baseCmd.action ++
      "' for kind 'list'. Try 'tasks', 'pipelines', or 'stepactions'.")

/-- `case "show"`: read-only; serialize a single entity. -/
def execShow (baseCmd : BaseCommand) (s : Session) :
    Except String (Session × Res) :=
  match baseCmd.action with
  | "task" =>
    match baseCmd.args with
    | [name] =>
      match mapGet s.tasks name with
      | none => .error ("task '" ++ name ++ "' not found")
      | some t => .ok (s, .bytes (yamlMarshalTask t))
    | _ =>
      .error ("show task expects 1 argument (name), got " ++
        toString baseCmd.args.length)
  | "pipeline" =>
    match baseCmd.args with
    | [name] =>
      match mapGet s.pipelines name with
      | none => .error ("pipeline '" ++ name ++ "' not found")
      | some p => .ok (s, .bytes (yamlMarshalPipeline p))
    | _ =>
      .error ("show pipeline expects 1 argument (name), got " ++
        toString baseCmd.args.length)
  | _ =>
    .error ("unknown action '" ++ baseCmd.action ++
      "' for kind 'show'. Try 'task <name>' or 'pipeline <name>'.")

/-- `case "undo"`: pop and invoke one revert action if present, else no-op. -/
def execUndo (baseCmd : BaseCommand) (s : Session) :
    Except String (Session × Res) :=
  if baseCmd.args.length > 0 ∨ baseCmd.action ≠ "" then
    .error "undo command does not take arguments or actions"
  else
    match s.popRevertAction with
    | (some a, s') => .ok (applyRevert a s', .unit)
    | (none, s') => .ok (s', .unit)

/-- `case "reset"`: hard wipe of the whole session, no revert action runs. -/
def execReset (baseCmd : BaseCommand) (s : Session) :
    Except String (Session × Res) :=
  if baseCmd.args.length > 0 ∨ baseCmd.action ≠ "" then
    .error "reset command does not take arguments or actions"
  else .ok (s.Reset, .unit)

/-- `case "validate"`. -/
def execValidate (baseCmd : BaseCommand) (s : Session) :
    Except String (Session × Res) :=
  if baseCmd.args.length > 0 ∨ baseCmd.action ≠ "" then
    .error "validate command does not take arguments or actions"
  else
    match ValidateSession s with
    | some e => .error ("validation failed: " ++ e)
    | none => .ok (s, .unit)

/-- `engine.ExecuteCommand` (interface-based version): processes one base
command against the session, optionally applying an active when clause.  The
Go function's `prevResult` parameter is omitted because its value is never
read; the returned pair is the mutated session and the command result. -/
def ExecuteCommand (baseCmd : BaseCommand) (s : Session)
    (whenClause : Option WhenClause) : Except String (Session × Res) :=
  match baseCmd.kind with
  | "pipeline" =>
    match baseCmd.action with
    | "create" => execPipelineCreate baseCmd s
    | "select" => execPipelineSelect baseCmd s
    | "run" => execPipelineRun baseCmd s
    | _ =>
      .error ("unknown action '" ++ baseCmd.action ++ "' for kind 'pipeline'")
  | "task" =>
    match baseCmd.action with
    | "create" => execTaskCreate baseCmd s whenClause
    | "select" => execTaskSelect baseCmd s
    | "run" => execTaskRun baseCmd s
    | _ =>
      .error ("unknown action '" ++ baseCmd.action ++ "' for kind 'task'")
  | "param" => execParam baseCmd s
  | "step" =>
    match baseCmd.action with
    | "add" => execStepAdd baseCmd s
    | _ =>
      .error ("unknown action '" ++ baseCmd.action ++ "' for kind 'step'")
  | "export" => execExport baseCmd s
  | "apply" => execApply baseCmd s
  | "list" => execList baseCmd s
  | "show" => execShow baseCmd s
  | "undo" => execUndo baseCmd s
  | "reset" => execReset baseCmd s
  | "validate" => execValidate baseCmd s
  | _ => .error ("unknown command kind '" ++ baseCmd.kind ++ "'")

/-! ## The REPL dispatch loop (repl.executor) -/

/-- One step of the REPL loop: the session after dispatching `b` with the
active when clause `aw`; on error the REPL prints the message and keeps the
unchanged session.  (The `prevResult` the REPL forwards is never read by the
engine and is not modelled.) -/
def stepBase (b : BaseCommand) (aw : Option WhenClause) (s : Session) :
    Session :=
  match ExecuteCommand b s aw with
  | .ok (s', _) => s'
  | .error _ => s

/-- The loop of `repl.executor`: a when clause is held as active for the next
base command only and is cleared after every base command, used or not. -/
def executorSteps : List LineCmd → Session → Option WhenClause → Session
  | [], s, _ => s
  | .whenClause w :: rest, s, _ => executorSteps rest s (some w)
  | .base b :: rest, s, aw => executorSteps rest (stepBase b aw s) none

/-- `repl.executor` applied to an already-parsed pipe sequence. -/
def executor (line : List LineCmd) (s : Session) : Session :=
  executorSteps line s none

/-! ## Well-formedness

Every engine-reachable session stores each entity under its own name, and the
spec's data-model invariant (§3) requires map keys to be non-empty. -/

/-- Map keys are the stored entities' names and are non-empty (spec §3). -/
def Session.WF (s : Session) : Prop :=
  (∀ e ∈ s.pipelines, e.2.name = e.1 ∧ e.1 ≠ "") ∧
  (∀ e ∈ s.tasks, e.2.name = e.1 ∧ e.1 ≠ "")

instance (s : Session) : Decidable s.WF := by
  unfold Session.WF; infer_instance

/-! ## Lemmas about the Go map model -/

theorem mapGet_eq_none {α : Type} {m : List (String × α)} {k : String}
    (h : mapGet m k = none) : ∀ e ∈ m, (e.1 == k) = false := by
  intro e he
  unfold mapGet at h
  rw [Option.map_eq_none'] at h
  have := List.find?_eq_none.mp h e he
  simpa using this

theorem mapDelete_of_get_none {α : Type} {m : List (String × α)} {k : String}
    (h : mapGet m k = none) : mapDelete m k = m := by
  unfold mapDelete
  rw [List.filter_eq_self]
  intro e he
  have := mapGet_eq_none h e he
  simp [bne, this]

theorem mapSet_of_get_none {α : Type} {m : List (String × α)} {k : String}
    {v : α} (h : mapGet m k = none) : mapSet m k v = m ++ [(k, v)] := by
  induction m with
  | nil => rfl
  | cons e m ih =>
    have he : (e.1 == k) = false := mapGet_eq_none h e (List.mem_cons_self e m)
    have hm : mapGet m k = none := by
      unfold mapGet at h ⊢
      rw [Option.map_eq_none'] at h ⊢
      rw [List.find?_eq_none] at h ⊢
      exact fun x hx => h x (List.mem_cons_of_mem e hx)
    simp [mapSet, he, ih hm]

theorem mapDelete_append_single {α : Type} {m : List (String × α)}
    {k : String} {v : α} :
    mapDelete (m ++ [(k, v)]) k = mapDelete m k := by
  unfold mapDelete
  rw [List.filter_append]
  simp [bne]

theorem mapGet_mapSet_self {α : Type} (m : List (String × α)) (k : String)
    (v : α) : mapGet (mapSet m k v) k = some v := by
  induction m with
  | nil => simp [mapSet, mapGet, List.find?]
  | cons e m ih =>
    by_cases he : (e.1 == k) = true
    · simp [mapSet, he, mapGet, List.find?]
    · rw [Bool.not_eq_true] at he
      simp only [mapSet, he, Bool.false_eq_true, if_false]
      unfold mapGet at ih ⊢
      simp [List.find?, he, ih]

theorem mapSet_mapSet_self {α : Type} (m : List (String × α)) (k : String)
    (v w : α) : mapSet (mapSet m k v) k w = mapSet m k w := by
  induction m with
  | nil => simp [mapSet]
  | cons e m ih =>
    by_cases he : (e.1 == k) = true
    · simp [mapSet, he]
    · rw [Bool.not_eq_true] at he
      simp [mapSet, he, ih]

theorem mapSet_of_get_self {α : Type} {m : List (String × α)} {k : String}
    {v : α} (h : mapGet m k = some v) : mapSet m k v = m := by
  induction m with
  | nil => simp [mapGet, List.find?] at h
  | cons e m ih =>
    by_cases he : (e.1 == k) = true
    · have hk : e.1 = k := by simpa using he
      have hv : e.2 = v := by
        unfold mapGet at h
        simp [List.find?, he] at h
        exact h
      simp [mapSet, he, ← hk, ← hv]
    · rw [Bool.not_eq_true] at he
      have hm : mapGet m k = some v := by
        unfold mapGet at h ⊢
        simpa [List.find?, he] using h
      simp [mapSet, he, ih hm]

theorem mapGet_mem {α : Type} {m : List (String × α)} {k : String} {v : α}
    (h : mapGet m k = some v) : (k, v) ∈ m := by
  induction m with
  | nil => simp [mapGet, List.find?] at h
  | cons e m ih =>
    by_cases he : (e.1 == k) = true
    · have hk : e.1 = k := by simpa using he
      have hv : e.2 = v := by
        unfold mapGet at h
        simp [List.find?, he] at h
        exact h
      have hev : (k, v) = e := by rw [← hk, ← hv]
      rw [hev]
      exact List.mem_cons_self e m
    · rw [Bool.not_eq_true] at he
      have hm : mapGet m k = some v := by
        unfold mapGet at h ⊢
        simpa [List.find?, he] using h
      exact List.mem_cons_of_mem e (ih hm)

/-! ## Lemmas about list updates used by the revert actions -/

theorem set_get?_self {α : Type} {l : List α} {i : Nat} {a : α}
    (h : l.get? i = some a) : l.set i a = l := by
  induction l generalizing i with
  | nil => simp at h
  | cons x l ih =>
    cases i with
    | zero => simp at h; simp [List.set, h]
    | succ n =>
      simp only [List.get?] at h
      simp [List.set, ih h]

theorem eraseIdx_concat {α : Type} (l : List α) (a : α) :
    (l ++ [a]).eraseIdx l.length = l := by
  induction l with
  | nil => rfl
  | cons x l ih => simp [List.eraseIdx, ih]

theorem get?_concat_self {α : Type} (l : List α) (a : α) :
    (l ++ [a]).get? l.length = some a := by
  induction l with
  | nil => rfl
  | cons x l ih => simp [List.get?, ih]

/-! ## Lemmas about the interpolator -/

theorem replaceAllAux_of_not_contains {pat rep s : List Char}
    (h : containsPat pat s = false) :
    ∀ fuel, replaceAllAux pat rep fuel s = s := by
  induction s with
  | nil => intro fuel; cases fuel <;> rfl
  | cons c rest ih =>
    intro fuel
    rw [containsPat, Bool.or_eq_false_iff] at h
    cases fuel with
    | zero => rfl
    | succ n => simp [replaceAllAux, h.1, ih h.2]

theorem replaceAll_of_not_contains {s pat rep : String}
    (h : containsPat pat.data s.data = false) : replaceAll s pat rep = s := by
  unfold replaceAll
  split
  · rfl
  · rw [replaceAllAux_of_not_contains h]

theorem interpolateParams_of_no_refs {s : String} {params : List ParamSpec}
    (h : ∀ p ∈ params, containsRef s p.name = false) :
    interpolateParams s params = s := by
  induction params with
  | nil => rfl
  | cons p ps ih =>
    unfold interpolateParams at ih ⊢
    rw [List.foldl_cons]
    have hstep :
        (match p.default with
         | some d => replaceAll s (paramPattern p.name) d.stringVal
         | none => s) = s := by
      cases p.default with
      | none => rfl
      | some d =>
        exact replaceAll_of_not_contains (h p (List.mem_cons_self p ps))
    rw [hstep]
    exact ih (fun q hq => h q (List.mem_cons_of_mem p hq))

/-! ## Claim theorems -/

/-- C9: interpolation is the identity on reference-free strings: for every
task `T` and every string `s` containing no `$(params.<name>)` reference for
any param of `T`, `interpolate(s, T.params) = s`. -/
theorem c9_interpolation_identity (t : Task) (s : String)
    (h : ∀ p ∈ t.spec.params, containsRef s p.name = false) :
    interpolateParams s t.spec.params = s :=
  interpolateParams_of_no_refs h

/-- Witness for C9 at a concrete task and string. -/
theorem c9_interpolation_identity_witness :
    (∀ p ∈ ({ name := "t",
              spec := { params := [⟨"v", "string", some ⟨"string", "1.7.3"⟩⟩],
                        steps := [] } } : Task).spec.params,
        containsRef "echo hello" p.name = false) ∧
    interpolateParams "echo hello"
      ({ name := "t",
         spec := { params := [⟨"v", "string", some ⟨"string", "1.7.3"⟩⟩],
                   steps := [] } } : Task).spec.params = "echo hello" :=
  ⟨by decide,
   c9_interpolation_identity
     { name := "t",
       spec := { params := [⟨"v", "string", some ⟨"string", "1.7.3"⟩⟩],
                 steps := [] } }
     "echo hello" (by decide)⟩

/-- C3 counterexample: with params `a ↦ "$(params.b)"`, `b ↦ "X"` (in that
order), interpolating `"$(params.a)"` yields `"X"`: the text substituted for
`a` was re-scanned and replaced again by `b`'s pass, contradicting the claim
that a substituted value is never itself re-scanned for further replacement
(which would have produced `"$(params.b)"`). -/
theorem c3_counterexample :
    interpolateParams "$(params.a)"
      [⟨"a", "string", some ⟨"string", "$(params.b)"⟩⟩,
       ⟨"b", "string", some ⟨"string", "X"⟩⟩] = "X" ∧
    ("X" : String) ≠ "$(params.b)" := by
  constructor
  · decide
  · decide

/-- C3 amended: interpolation is a single left-to-right pass over the param
list, one non-recursive global replace per param, in list order; the value
substituted during one param's pass is not re-scanned by that same pass, but
it is scanned by the passes of params later in the list — a reference to a
later param inside a default value is replaced again, while a reference to
the same or an earlier param survives. -/
theorem c3_amended_single_pass :
    (∀ (text : String) (ps : List ParamSpec) (p : ParamSpec),
        interpolateParams text (ps ++ [p]) =
          (match p.default with
           | some d =>
             replaceAll (interpolateParams text ps) (paramPattern p.name)
               d.stringVal
           | none => interpolateParams text ps)) ∧
    interpolateParams "$(params.a)"
      [⟨"a", "string", some ⟨"string", "$(params.b)"⟩⟩,
       ⟨"b", "string", some ⟨"string", "X"⟩⟩] = "X" ∧
    interpolateParams "$(params.a)"
      [⟨"b", "string", some ⟨"string", "X"⟩⟩,
       ⟨"a", "string", some ⟨"string", "$(params.b)"⟩⟩] = "$(params.b)" := by
  refine ⟨fun text ps p => ?_, by decide, by decide⟩
  unfold interpolateParams
  rw [List.foldl_append, List.foldl_cons, List.foldl_nil]

/-- C2: dispatching `pipeline create p | when a == "b" | task create t` on an
empty session attaches exactly the converted condition `(a, ==, b)` — encoded
by the engine as the WhenExpression `(a, "in", ["b"])` — to the pipeline-task
edge for `t` in `p`; dispatching `when a == "b" | export all` leaves the
session (hence every entity) untouched; and an active when clause never
survives past the next base command: the command after next is always
dispatched with no active clause, whether or not the previous one used it. -/
theorem c2_when_attachment_locality :
    (mapGet (executor
        [.base ⟨"pipeline", "create", ["p"], ""⟩,
         .whenClause ⟨[⟨"a", "==", "b"⟩]⟩,
         .base ⟨"task", "create", ["t"], ""⟩] NewSession).pipelines "p" =
      some ⟨"p", ⟨[⟨"t", some ⟨"t", "Task"⟩, [⟨"a", "in", ["b"]⟩]⟩]⟩⟩ ∧
     convertToTektonWhenExpressions (some ⟨[⟨"a", "==", "b"⟩]⟩) =
       [⟨"a", "in", ["b"]⟩]) ∧
    executor [.whenClause ⟨[⟨"a", "==", "b"⟩]⟩,
      .base ⟨"export", "all", [], ""⟩] NewSession = NewSession ∧
    (∀ (w : WhenClause) (b₁ b₂ : BaseCommand) (s : Session),
        executor [.whenClause w, .base b₁, .base b₂] s =
          stepBase b₂ none (executor [.whenClause w, .base b₁] s)) :=
  ⟨⟨by decide, by decide⟩, by decide, fun _ _ _ _ => rfl⟩

/-- C4: `pipeline create X` for an existing name `X` always fails with the
"already exists" error and leaves the whole session — maps, current pointers
and undo stack — unchanged. -/
theorem c4_duplicate_pipeline_create (s : Session) (w : Option WhenClause)
    (name : String) (h : (mapGet s.pipelines name).isSome) :
    ExecuteCommand ⟨"pipeline", "create", [name], ""⟩ s w =
      .error ("pipeline " ++ name ++ " already exists") ∧
    stepBase ⟨"pipeline", "create", [name], ""⟩ w s = s := by
  have he : ExecuteCommand ⟨"pipeline", "create", [name], ""⟩ s w =
      .error ("pipeline " ++ name ++ " already exists") := by
    simp [ExecuteCommand, execPipelineCreate, h]
  exact ⟨he, by simp [stepBase, he]⟩

/-- Witness for C4: creating "p" twice from an empty session. -/
theorem c4_duplicate_pipeline_create_witness :
    (mapGet (executor [.base ⟨"pipeline", "create", ["p"], ""⟩]
        NewSession).pipelines "p").isSome = true ∧
    ExecuteCommand ⟨"pipeline", "create", ["p"], ""⟩
        (executor [.base ⟨"pipeline", "create", ["p"], ""⟩] NewSession) none =
      .error ("pipeline " ++ "p" ++ " already exists") :=
  ⟨by decide,
   (c4_duplicate_pipeline_create
     (executor [.base ⟨"pipeline", "create", ["p"], ""⟩] NewSession) none "p"
     (by decide)).1⟩

/-- C6: `reset` yields the empty session — empty maps, nil current pointers,
empty undo history — from every session whatsoever (in particular after any
dispatched command sequence), so its result never depends on, and never
invokes, the stacked revert actions. -/
theorem c6_reset_hard_wipe :
    (∀ s : Session,
        ExecuteCommand ⟨"reset", "", [], ""⟩ s none = .ok (NewSession, .unit)) ∧
    (∀ line : List LineCmd,
        ExecuteCommand ⟨"reset", "", [], ""⟩ (executor line NewSession) none =
          .ok (NewSession, .unit)) :=
  ⟨fun _ => rfl, fun _ => rfl⟩

/-- C10: `task select n` for a stored name `n` sets the current task to the
task stored under `n` and changes nothing else — pipelines, tasks, current
pipeline and the undo stack are untouched, and no revert action is pushed, so
a select is not reversed by a later undo. -/
theorem c10_task_select_frame (s : Session) (w : Option WhenClause)
    (n : String) (t : Task) (h : mapGet s.tasks n = some t) :
    ExecuteCommand ⟨"task", "select", [n], ""⟩ s w =
      .ok ({ s with currentTask := some n }, .task t) := by
  simp [ExecuteCommand, execTaskSelect, h]

/-- Witness for C10 at a concrete two-task session. -/
theorem c10_task_select_frame_witness :
    mapGet (executor [.base ⟨"task", "create", ["t"], ""⟩]
        NewSession).tasks "t" = some ⟨"t", ⟨[], []⟩⟩ ∧
    ExecuteCommand ⟨"task", "select", ["t"], ""⟩
        (executor [.base ⟨"task", "create", ["t"], ""⟩] NewSession) none =
      .ok ({ executor [.base ⟨"task", "create", ["t"], ""⟩] NewSession with
             currentTask := some "t" }, .task ⟨"t", ⟨[], []⟩⟩) :=
  ⟨by decide,
   c10_task_select_frame
     (executor [.base ⟨"task", "create", ["t"], ""⟩] NewSession) none "t"
     ⟨"t", ⟨[], []⟩⟩ (by decide)⟩

/-- C8: the three `list` actions are read-only (the session comes back
unchanged); `list tasks` / `list pipelines` return the lexicographically
sorted name list of the corresponding map, or the fixed placeholder message
when the map is empty; `list stepactions` returns the fixed not-implemented
message. -/
theorem c8_list_sorted_readonly (s : Session) (w : Option WhenClause) :
    (∃ l, ExecuteCommand ⟨"list", "tasks", [], ""⟩ s w = .ok (s, .strings l) ∧
      ((s.tasks = [] ∧ l = ["No tasks defined."]) ∨
       (s.tasks ≠ [] ∧ List.Sorted strDataLe l ∧ l.Perm (mapKeys s.tasks)))) ∧
    (∃ l, ExecuteCommand ⟨"list", "pipelines", [], ""⟩ s w =
        .ok (s, .strings l) ∧
      ((s.pipelines = [] ∧ l = ["No pipelines defined."]) ∨
       (s.pipelines ≠ [] ∧ List.Sorted strDataLe l ∧
         l.Perm (mapKeys s.pipelines)))) ∧
    ExecuteCommand ⟨"list", "stepactions", [], ""⟩ s w =
      .ok (s, .strings ["list stepactions is not implemented yet"]) := by
  refine ⟨?_, ?_, rfl⟩
  · by_cases hts : s.tasks = []
    · exact ⟨["No tasks defined."],
        by simp [ExecuteCommand, execList, hts], Or.inl ⟨hts, rfl⟩⟩
    · refine ⟨sortStrings (mapKeys s.tasks),
        by simp [ExecuteCommand, execList, hts], Or.inr ⟨hts, ?_, ?_⟩⟩
      · exact List.sorted_insertionSort strDataLe (mapKeys s.tasks)
      · exact List.perm_insertionSort strDataLe (mapKeys s.tasks)
  · by_cases hps : s.pipelines = []
    · exact ⟨["No pipelines defined."],
        by simp [ExecuteCommand, execList, hps], Or.inl ⟨hps, rfl⟩⟩
    · refine ⟨sortStrings (mapKeys s.pipelines),
        by simp [ExecuteCommand, execList, hps], Or.inr ⟨hps, ?_, ?_⟩⟩
      · exact List.sorted_insertionSort strDataLe (mapKeys s.pipelines)
      · exact List.perm_insertionSort strDataLe (mapKeys s.pipelines)

/-- C5: whenever a `pipeline create` or `pipeline select` succeeds — the two
transitions that change the current pipeline — the current task is cleared in
the same command, so no dispatched create/select can leave a freshly current
pipeline with a stale current task. -/
theorem c5_current_task_cleared (b : BaseCommand) (s s' : Session)
    (w : Option WhenClause) (r : Res) (hk : b.kind = "pipeline")
    (ha : b.action = "create" ∨ b.action = "select")
    (h : ExecuteCommand b s w = .ok (s', r)) : s'.currentTask = none := by
  obtain ⟨kind, action, args, script⟩ := b
  simp only at hk ha
  subst hk
  rcases ha with ha | ha <;> subst ha <;>
    simp only [ExecuteCommand] at h
  · unfold execPipelineCreate at h
    cases args with
    | nil => simp at h
    | cons a args' =>
      cases args' with
      | cons b bs => simp at h
      | nil =>
        simp only at h
        split at h
        · simp at h
        · rw [Except.ok.injEq, Prod.mk.injEq] at h
          rw [← h.1]
          rfl
  · unfold execPipelineSelect at h
    cases args with
    | nil => simp at h
    | cons a args' =>
      cases args' with
      | cons b bs => simp at h
      | nil =>
        simp only at h
        split at h
        · simp at h
        · rw [Except.ok.injEq, Prod.mk.injEq] at h
          rw [← h.1]

theorem findIdx?_some_get? {α : Type} {p : α → Bool} {l : List α} {i : Nat}
    (h : List.findIdx? p l = some i) :
    ∃ a, l.get? i = some a ∧ p a = true := by
  induction l generalizing i with
  | nil => simp [List.findIdx?] at h
  | cons x xs ih =>
    rw [List.findIdx?_cons] at h
    by_cases hp : p x = true
    · rw [if_pos hp] at h
      obtain rfl : (0 : Nat) = i := by simpa using h
      exact ⟨x, rfl, hp⟩
    · rw [if_neg hp, List.findIdx?_succ] at h
      obtain ⟨j, hj, rfl⟩ := Option.map_eq_some'.mp h
      obtain ⟨a, ha, hpa⟩ := ih hj
      exact ⟨a, by simpa [List.get?] using ha, hpa⟩

theorem get?_set_lt {α : Type} {l : List α} {i : Nat} {a : α}
    (h : i < l.length) : (l.set i a).get? i = some a := by
  induction l generalizing i with
  | nil => simp at h
  | cons x xs ih =>
    cases i with
    | zero => rfl
    | succ n =>
      simp only [List.length_cons, Nat.succ_lt_succ_iff] at h
      simpa [List.set, List.get?] using ih h

/-- Witness for C5: `pipeline create p` on the empty session. -/
theorem c5_current_task_cleared_witness :
    ∃ s' r, ExecuteCommand ⟨"pipeline", "create", ["p"], ""⟩ NewSession none =
        .ok (s', r) ∧ s'.currentTask = none := by
  refine ⟨stepBase ⟨"pipeline", "create", ["p"], ""⟩ none NewSession,
    .pipeline ⟨"p", ⟨[]⟩⟩, rfl, ?_⟩
  exact c5_current_task_cleared ⟨"pipeline", "create", ["p"], ""⟩ NewSession
    (stepBase ⟨"pipeline", "create", ["p"], ""⟩ none NewSession) none
    (.pipeline ⟨"p", ⟨[]⟩⟩) rfl (Or.inl rfl) rfl

/-- A session with one task `t` that is current, used to refute C7. -/
def paramCexSession : Session :=
  { pipelines := [], tasks := [("t", ⟨"t", ⟨[], []⟩⟩)],
    currentPipeline := none, currentTask := some "t", pastActions := [] }

/-- C7 counterexample: with a current task set, `param foo bar` — whose first
argument is *not* a `name=` argument — does not fail as the claim requires:
the dispatcher only checks the argument count, accepts `foo` verbatim as the
param name (the trailing-`=` strip is a no-op) and upserts it. -/
theorem c7_counterexample :
    ExecuteCommand ⟨"param", "", ["foo", "bar"], ""⟩ paramCexSession none =
      .ok ({ pipelines := [],
             tasks :=
               [("t", ⟨"t", ⟨[⟨"foo", "string", some ⟨"string", "bar"⟩⟩], []⟩⟩)],
             currentPipeline := none,
             currentTask := some "t",
             pastActions := [.setParam "t" "foo" false 0 none] },
        .task ⟨"t", ⟨[⟨"foo", "string", some ⟨"string", "bar"⟩⟩], []⟩⟩) := by
  rfl

/-- C7 amended: the `param` command (no action) fails iff no current task is
set or the argument count differs from two; the first argument need not be a
`name=` argument — a trailing `=` is stripped when present and the argument is
otherwise used verbatim as the param name.  On success it upserts the
ParamSpec default for that name on the current task (overwrite when a param of
that name exists, else append) and returns the updated current task. -/
theorem c7_param_amended (s : Session) (args : List String) (script : String)
    (w : Option WhenClause) :
    ((∃ e, ExecuteCommand ⟨"param", "", args, script⟩ s w = .error e) ↔
      (s.currentTask.bind (mapGet s.tasks) = none ∨ args.length ≠ 2)) ∧
    (∀ ct t a₀ a₁, s.currentTask = some ct → mapGet s.tasks ct = some t →
      args = [a₀, a₁] →
      ∃ act t',
        ExecuteCommand ⟨"param", "", args, script⟩ s w =
          .ok ({ s with
                 tasks := mapSet s.tasks ct t',
                 pastActions := s.pastActions ++ [act] }, .task t') ∧
        t'.name = t.name ∧ t'.spec.steps = t.spec.steps ∧
        (match t.spec.params.findIdx?
            (fun p => p.name == trimEqSuffix a₀) with
         | some i =>
           t'.spec.params = setParamDefault t.spec.params i
             (some ⟨"string", unquoteParamValue a₁⟩)
         | none =>
           t'.spec.params = t.spec.params ++
             [⟨trimEqSuffix a₀, "string",
               some ⟨"string", unquoteParamValue a₁⟩⟩])) := by
  cases hct : s.currentTask with
  | none =>
    refine ⟨?_, ?_⟩
    · simp [ExecuteCommand, execParam, hct]
    · intro ct t a₀ a₁ h1
      simp at h1
  | some ct =>
    cases hg : mapGet s.tasks ct with
    | none =>
      refine ⟨?_, ?_⟩
      · simp [ExecuteCommand, execParam, hct, hg]
      · intro ct' t a₀ a₁ h1 h2
        obtain rfl : ct = ct' := by simpa using h1
        rw [hg] at h2
        simp at h2
    | some t =>
      have hsucc : ∀ a₀ a₁, args = [a₀, a₁] →
          ∃ act t',
            ExecuteCommand ⟨"param", "", args, script⟩ s w =
              .ok ({ s with
                     tasks := mapSet s.tasks ct t',
                     pastActions := s.pastActions ++ [act] }, .task t') ∧
            t'.name = t.name ∧ t'.spec.steps = t.spec.steps ∧
            (match t.spec.params.findIdx?
                (fun p => p.name == trimEqSuffix a₀) with
             | some i =>
               t'.spec.params = setParamDefault t.spec.params i
                 (some ⟨"string", unquoteParamValue a₁⟩)
             | none =>
               t'.spec.params = t.spec.params ++
                 [⟨trimEqSuffix a₀, "string",
                   some ⟨"string", unquoteParamValue a₁⟩⟩]) := by
        intro a₀ a₁ h3
        subst h3
        cases hfi : t.spec.params.findIdx?
            (fun p => p.name == trimEqSuffix a₀) with
        | some i =>
          refine ⟨.setParam t.name (trimEqSuffix a₀) true i
              (t.spec.params.get? i),
            { t with spec := { t.spec with
                params := setParamDefault t.spec.params i
                  (some ⟨"string", unquoteParamValue a₁⟩) } }, ?_, rfl, rfl, ?_⟩
          · simp [ExecuteCommand, execParam, hct, hg, hfi,
              Session.pushRevertAction]
          · rfl
        | none =>
          refine ⟨.setParam t.name (trimEqSuffix a₀) false
              t.spec.params.length none,
            { t with spec := { t.spec with
                params := t.spec.params ++
                  [⟨trimEqSuffix a₀, "string",
                    some ⟨"string", unquoteParamValue a₁⟩⟩] } }, ?_, rfl, rfl, ?_⟩
          · simp [ExecuteCommand, execParam, hct, hg, hfi,
              Session.pushRevertAction]
          · rfl
      refine ⟨?_, ?_⟩
      · match args with
        | [a₀, a₁] =>
          obtain ⟨act, t', hok, _⟩ := hsucc a₀ a₁ rfl
          constructor
          · rintro ⟨e, he⟩
            rw [hok] at he
            simp at he
          · intro hor
            rcases hor with hor | hor
            · rw [Option.some_bind, hg] at hor
              simp at hor
            · simp at hor
        | [] =>
          constructor
          · intro _
            right
            simp
          · intro _
            simp only [ExecuteCommand, execParam, hct, hg]
            exact ⟨_, rfl⟩
        | [a₀] =>
          constructor
          · intro _
            right
            simp
          · intro _
            simp only [ExecuteCommand, execParam, hct, hg]
            exact ⟨_, rfl⟩
        | a₀ :: a₁ :: a₂ :: rest =>
          constructor
          · intro _
            right
            simp
          · intro _
            simp only [ExecuteCommand, execParam, hct, hg]
            exact ⟨_, rfl⟩
      · intro ct' t'' a₀ a₁ h1 h2 h3
        obtain rfl : ct = ct' := by simpa using h1
        rw [hg] at h2
        obtain rfl : t = t'' := by simpa using h2
        have h := hsucc a₀ a₁ h3
        rw [hct] at h
        exact h

/-- Witness for C7's amended theorem: `param v= 1` on a session whose current
task `t` has no params appends the ParamSpec `v` with default "1". -/
theorem c7_param_amended_witness :
    ∃ act t',
      ExecuteCommand ⟨"param", "", ["v=", "1"], ""⟩ paramCexSession none =
        .ok ({ paramCexSession with
               tasks := mapSet paramCexSession.tasks "t" t',
               pastActions := paramCexSession.pastActions ++ [act] },
          .task t') ∧
      t'.name = "t" ∧ t'.spec.steps = [] ∧
      t'.spec.params = [⟨"v", "string", some ⟨"string", "1"⟩⟩] := by
  obtain ⟨act, t', h1, h2, h3, h4⟩ :=
    (c7_param_amended paramCexSession ["v=", "1"] "" none).2 "t" ⟨"t", ⟨[], []⟩⟩
      "v=" "1" rfl rfl rfl
  have e1 : trimEqSuffix "v=" = "v" := by decide
  have e2 : unquoteParamValue "1" = "1" := by decide
  simp only [e1, e2] at h4
  exact ⟨act, t', h1, h2, h3, h4⟩

theorem setParamDefault_of_get? {ps : List ParamSpec} {i : Nat}
    {orig : ParamSpec} (hgi : ps.get? i = some orig) (d : Option ParamValue) :
    setParamDefault ps i d = ps.set i { orig with default := d } := by
  unfold setParamDefault
  rw [hgi]

/-! ## C1: undo exactness -/

/-- The four mutating commands of the dispatcher table (insert/upsert/append
rows): `pipeline create`, `task create`, `param`, `step add`. -/
def mutatingCmd (b : BaseCommand) : Prop :=
  (b.kind = "pipeline" ∧ b.action = "create") ∨
  (b.kind = "task" ∧ b.action = "create") ∨
  b.kind = "param" ∨
  (b.kind = "step" ∧ b.action = "add")

/-- A session holding one pipeline whose name is the empty string (created by
`pipeline create ""`, which the engine accepts) and nothing else. -/
def c1CexSession : Session :=
  { pipelines := [("", ⟨"", ⟨[]⟩⟩)], tasks := [],
    currentPipeline := some "", currentTask := none, pastActions := [] }

/-- The session after dispatching `task create t` on `c1CexSession`: the task
is created and an edge for it is appended to the empty-named pipeline. -/
def c1CexMid : Session :=
  { pipelines := [("", ⟨"", ⟨[⟨"t", some ⟨"t", "Task"⟩, []⟩]⟩⟩)],
    tasks := [("t", ⟨"t", ⟨[], []⟩⟩)],
    currentPipeline := some "", currentTask := some "t",
    pastActions := [.createTask "t" none true "" []] }

/-- C1 counterexample: `task create t` while the current pipeline is named
`""` succeeds and appends a pipeline-task edge, but the pushed revert action
skips the pipeline restoration (its guard requires a non-empty pipeline name),
so undo does not restore the session: the edge survives. -/
theorem c1_counterexample :
    ExecuteCommand ⟨"task", "create", ["t"], ""⟩ c1CexSession none =
      .ok (c1CexMid, .task ⟨"t", ⟨[], []⟩⟩) ∧
    stepBase ⟨"undo", "", [], ""⟩ none c1CexMid ≠ c1CexSession := by
  constructor
  · rfl
  · decide

/-- C1 amended: for every mutating command (pipeline create, task create,
param, step add) that succeeds on a well-formed session — entities stored
under their own names, and map keys non-empty as the data model requires —
dispatching undo immediately afterwards returns exactly the prior session:
maps, current pointers and undo stack included.  (Without the non-empty-name
requirement the task-create case fails, see the counterexample.) -/
theorem c1_undo_exactness (b : BaseCommand) (s s₁ : Session)
    (w : Option WhenClause) (r : Res) (hwf : s.WF) (hm : mutatingCmd b)
    (h : ExecuteCommand b s w = .ok (s₁, r)) :
    ExecuteCommand ⟨"undo", "", [], ""⟩ s₁ none = .ok (s, .unit) := by
  obtain ⟨kind, action, args, script⟩ := b
  rcases hm with ⟨hk, ha⟩ | ⟨hk, ha⟩ | hk | ⟨hk, ha⟩
  all_goals simp only at hk
  -- pipeline create
  · simp only at ha
    subst hk
    subst ha
    simp only [ExecuteCommand] at h
    unfold execPipelineCreate at h
    rcases args with _ | ⟨name, _ | ⟨a₂, rest⟩⟩
    · simp at h
    · cases hex : mapGet s.pipelines name with
      | some p => simp [hex] at h
      | none =>
        simp only [hex, Option.isSome_none, Bool.false_eq_true, if_false,
          Session.pushRevertAction] at h
        rw [Except.ok.injEq, Prod.mk.injEq] at h
        obtain ⟨h1, _⟩ := h
        subst h1
        simp only [ExecuteCommand, execUndo, Session.popRevertAction,
          List.getLast?_concat, List.dropLast_concat, applyRevert,
          mapSet_of_get_none hex, mapDelete_append_single,
          mapDelete_of_get_none hex]
        rfl
    · simp at h
  -- task create
  · simp only at ha
    subst hk
    subst ha
    simp only [ExecuteCommand] at h
    unfold execTaskCreate at h
    rcases args with _ | ⟨name, _ | ⟨a₂, rest⟩⟩
    · simp at h
    · cases hex : mapGet s.tasks name with
      | some t => simp [hex] at h
      | none =>
        simp only [hex, Option.isSome_none, Bool.false_eq_true, if_false,
          Session.pushRevertAction] at h
        cases hcp : s.currentPipeline with
        | none =>
          simp only [hcp] at h
          rw [Except.ok.injEq, Prod.mk.injEq] at h
          obtain ⟨h1, _⟩ := h
          subst h1
          simp only [ExecuteCommand, execUndo, Session.popRevertAction,
            List.getLast?_concat, List.dropLast_concat, applyRevert,
            mapSet_of_get_none hex, mapDelete_append_single,
            mapDelete_of_get_none hex]
          simp
          rw [← hcp]
        | some pname =>
          simp only [hcp] at h
          cases hpg : mapGet s.pipelines pname with
          | none =>
            simp only [hpg] at h
            rw [Except.ok.injEq, Prod.mk.injEq] at h
            obtain ⟨h1, _⟩ := h
            subst h1
            simp only [ExecuteCommand, execUndo, Session.popRevertAction,
              List.getLast?_concat, List.dropLast_concat, applyRevert,
              mapSet_of_get_none hex, mapDelete_append_single,
              mapDelete_of_get_none hex]
            simp
            rw [← hcp]
          | some p =>
            simp only [hpg] at h
            rw [Except.ok.injEq, Prod.mk.injEq] at h
            obtain ⟨h1, _⟩ := h
            subst h1
            obtain ⟨hpn, hpne⟩ := hwf.1 (pname, p) (mapGet_mem hpg)
            simp only at hpn hpne
            have hrp : ({ name := pname, spec := { tasks := p.spec.tasks } } :
                Pipeline) = p := by rw [← hpn]
            simp only [ExecuteCommand, execUndo, Session.popRevertAction,
              List.getLast?_concat, List.dropLast_concat, applyRevert]
            simp [mapSet_of_get_none hex, mapDelete_append_single,
              mapDelete_of_get_none hex, hpn, hpne, mapGet_mapSet_self,
              hrp, mapSet_mapSet_self, mapSet_of_get_self hpg]
            rw [← hcp]
    · simp at h
  -- param
  · subst hk
    simp only [ExecuteCommand] at h
    unfold execParam at h
    by_cases hact : action = ""
    · subst hact
      simp only [ne_eq, not_true_eq_false, if_neg, if_false] at h
      cases hct : s.currentTask with
      | none => simp [hct] at h
      | some ct =>
        simp only [hct] at h
        cases hgt : mapGet s.tasks ct with
        | none => simp [hgt] at h
        | some t =>
          simp only [hgt] at h
          obtain ⟨htn, _⟩ := hwf.2 (ct, t) (mapGet_mem hgt)
          simp only at htn
          rcases args with _ | ⟨a₀, _ | ⟨a₁, _ | ⟨a₂, rest⟩⟩⟩
          · simp at h
          · simp at h
          · cases hfi : t.spec.params.findIdx?
                (fun p => p.name == trimEqSuffix a₀) with
            | some i =>
              simp only [hfi, Session.pushRevertAction] at h
              rw [Except.ok.injEq, Prod.mk.injEq] at h
              obtain ⟨h1, _⟩ := h
              subst h1
              obtain ⟨orig, hgi, hp⟩ := findIdx?_some_get? hfi
              have hlen : i < t.spec.params.length :=
                (List.get?_eq_some.mp hgi).1
              have hname : orig.name = trimEqSuffix a₀ := eq_of_beq hp
              have hset1 := setParamDefault_of_get? hgi
                (some ⟨"string", unquoteParamValue a₁⟩)
              have hgi2 :
                  (t.spec.params.set i
                    { orig with default := some ⟨"string", unquoteParamValue a₁⟩ }).get? i
                  = some { orig with default := some ⟨"string", unquoteParamValue a₁⟩ } :=
                get?_set_lt (by simpa using hlen)
              have hset2 := setParamDefault_of_get? hgi2 orig.default
              have horig :
                  ({ name := orig.name,
                     type := orig.type,
                     default := orig.default } : ParamSpec) = orig := rfl
              have ht2 :
                  ({ name := ct,
                     spec := { params := t.spec.params,
                               steps := t.spec.steps } } : Task) = t := by
                rw [← htn]
              rw [← hname]
              rw [hgi]
              simp only [ExecuteCommand, execUndo, Session.popRevertAction,
                List.getLast?_concat, List.dropLast_concat, applyRevert,
                mapSetTask, htn, mapGet_mapSet_self]
              simp [hset1, hgi2, hset2, hlen, horig, List.set_set,
                set_get?_self hgi, ht2, mapSet_mapSet_self,
                mapSet_of_get_self hgt]
              rw [← hct]
            | none =>
              simp only [hfi, Session.pushRevertAction] at h
              rw [Except.ok.injEq, Prod.mk.injEq] at h
              obtain ⟨h1, _⟩ := h
              subst h1
              have hlen1 :
                  (t.spec.params ++
                    [(⟨trimEqSuffix a₀, "string",
                      some ⟨"string", unquoteParamValue a₁⟩⟩ : ParamSpec)]).length
                    - 1 = t.spec.params.length := by simp
              have ht2 :
                  ({ name := ct,
                     spec := { params := t.spec.params,
                               steps := t.spec.steps } } : Task) = t := by
                rw [← htn]
              simp only [ExecuteCommand, execUndo, Session.popRevertAction,
                List.getLast?_concat, List.dropLast_concat, applyRevert,
                mapSetTask, htn, mapGet_mapSet_self, hlen1]
              simp [get?_concat_self, eraseIdx_concat, ht2,
                mapSet_mapSet_self, mapSet_of_get_self hgt]
              rw [← hct]
          · simp at h
    · simp [hact] at h
  -- step add
  · simp only at ha
    subst hk
    subst ha
    simp only [ExecuteCommand] at h
    unfold execStepAdd at h
    cases hct : s.currentTask with
    | none => simp [hct] at h
    | some ct =>
      simp only [hct] at h
      cases hgt : mapGet s.tasks ct with
      | none => simp [hgt] at h
      | some t =>
        simp only [hgt] at h
        obtain ⟨htn, _⟩ := hwf.2 (ct, t) (mapGet_mem hgt)
        simp only at htn
        simp only [beq_iff_eq, Session.pushRevertAction] at h
        by_cases hsn : (scanStepArgs args).1 = ""
        · rw [if_pos hsn] at h
          simp at h
        · rw [if_neg hsn] at h
          by_cases him :
              (if (scanStepArgs args).2 = "" then findSeparateImage args
               else (scanStepArgs args).2) = ""
          · rw [if_pos him] at h
            simp at h
          · rw [if_neg him] at h
            rw [Except.ok.injEq, Prod.mk.injEq] at h
            obtain ⟨h1, _⟩ := h
            subst h1
            have ht2 :
                ({ name := ct,
                   spec := { params := t.spec.params,
                             steps := t.spec.steps } } : Task) = t := by
              rw [← htn]
            simp only [ExecuteCommand, execUndo, Session.popRevertAction,
              List.getLast?_concat, List.dropLast_concat, applyRevert,
              mapSetTask, htn, mapGet_mapSet_self]
            simp [List.dropLast_concat, ht2, mapSet_mapSet_self,
              mapSet_of_get_self hgt]
            rw [← hct]

/-- Witness for C1's amended theorem: `pipeline create p` on the empty
session, then undo, returns the empty session. -/
theorem c1_undo_exactness_witness :
    NewSession.WF ∧
    mutatingCmd ⟨"pipeline", "create", ["p"], ""⟩ ∧
    ∃ s₁ r, ExecuteCommand ⟨"pipeline", "create", ["p"], ""⟩ NewSession none =
        .ok (s₁, r) ∧
      ExecuteCommand ⟨"undo", "", [], ""⟩ s₁ none = .ok (NewSession, .unit) := by
  refine ⟨by decide, Or.inl ⟨rfl, rfl⟩,
    stepBase ⟨"pipeline", "create", ["p"], ""⟩ none NewSession,
    .pipeline ⟨"p", ⟨[]⟩⟩, rfl, ?_⟩
  exact c1_undo_exactness ⟨"pipeline", "create", ["p"], ""⟩ NewSession
    (stepBase ⟨"pipeline", "create", ["p"], ""⟩ none NewSession) none
    (.pipeline ⟨"p", ⟨[]⟩⟩) (by decide) (Or.inl ⟨rfl, rfl⟩) rfl

end TknShell
